import Mathlib

/-
  Verification of the training loop of `src/transferlearning.py`.

  The script's only nontrivial control flow lives in `train_model`
  (lines 208-274) and `visualize_model` (lines 281-305).  We embed both
  shallowly: the external collaborators (the network's forward pass, the
  loss criterion, the optimizer's parameter update, the learning-rate
  scheduler, and the two data partitions served by `dataloaders`) are
  fields of a `Config`, exactly the capability set the loop uses.  Losses
  and accuracies are rationals; parameter states, inputs and scheduler
  states are abstract types.  The loop additionally emits a trace of
  `Event`s recording, in program order, the observable actions the spec
  talks about (mode switches, batch completions, scheduler steps, metric
  computations, snapshot updates).
-/

namespace TL

/-- The two phases of each epoch, in the order the loop visits them
(`for phase in ['train', 'val']`, line 220). -/
inductive Phase
  | train
  | val
deriving DecidableEq, Repr

/-- `phase == 'train'` as a Bool: the mode the loop puts the model in at the
start of the phase (`model.train()` / `model.eval()`, lines 221-224). -/
def Phase.isTrain : Phase → Bool
  | Phase.train => true
  | Phase.val => false

/-- One batch yielded by a dataloader: an input tensor of `inputs.size(0)`
samples and the matching label tensor (`for inputs, labels in
dataloaders[phase]`, line 230).  Inputs are abstract (`ι`); labels are class
indices. -/
structure Batch (ι : Type) where
  inputs : List ι
  labels : List ℕ

/-- `inputs.size(0)`, the number of samples in the batch (line 251). -/
def Batch.size {ι : Type} (b : Batch ι) : ℕ := b.inputs.length

/-- The external collaborators `train_model` interacts with.  `forward p m x`
is the model's per-class score vector for sample `x` with parameters `p` in
mode `m` (`outputs = model(inputs)`, line 241); `criterion outs labs` is the
scalar batch loss `criterion(outputs, labels).item()` (line 243);
`optStep s p b` is the net effect on the parameters of
`loss.backward(); optimizer.step()` for batch `b` at scheduler state `s`
(lines 247-248); `schedStep` is `scheduler.step()` (line 254); `data ph` is
the batch sequence `dataloaders[ph]` yields (line 230). -/
structure Config (P ι S : Type) where
  forward : P → Bool → ι → List ℚ
  criterion : List (List ℚ) → List ℕ → ℚ
  optStep : S → P → Batch ι → P
  schedStep : S → S
  data : Phase → List (Batch ι)

/-- `dataset_sizes[ph]` (line 148): the number of samples in the partition.
The dataloader yields batches that exactly cover the dataset, so this equals
the sum of the batch sizes. -/
def Config.datasetSize {P ι S : Type} (cfg : Config P ι S) (ph : Phase) : ℕ :=
  ((cfg.data ph).map Batch.size).sum

/-- The model as the loop sees it: its mutable parameter state
(`model.state_dict()`) and its training/evaluation mode flag
(`model.training`). -/
structure ModelState (P : Type) where
  params : P
  training : Bool

/-- The mutable state of one run of `train_model`: the model, the scheduler
state, and the tracking pair `best_acc` / `best_model_wts`
(lines 212-213). -/
structure LoopState (P S : Type) where
  model : ModelState P
  sched : S
  best_acc : ℚ
  best_model_wts : P

/-- The per-phase accumulator: the parameters as they evolve through the
batch loop together with `running_loss` and `running_corrects`
(lines 226-227). -/
structure BatchAcc (P : Type) where
  params : P
  running_loss : ℚ
  running_corrects : ℕ

/-- Observable actions of the loop, in program order:  `setMode b` is
`model.train()` (`b = true`) or `model.eval()` (`b = false`);  `batchDone ph`
is the completion of one iteration of the batch loop in phase `ph`;
`schedStep` is `scheduler.step()`;  `metrics ph l a` is the computation of
`epoch_loss = l` and `epoch_acc = a` for phase `ph` (lines 256-257);
`snapshot` is an update of `best_acc` / `best_model_wts` (lines 262-264). -/
inductive Event
  | setMode (training : Bool)
  | batchDone (ph : Phase)
  | schedStep
  | metrics (ph : Phase) (loss acc : ℚ)
  | snapshot
deriving DecidableEq, Repr

/-- Index of the first maximal entry of a score list: auxiliary scan keeping
the best index and value seen so far. -/
def argmaxAux (i bi : ℕ) (bv : ℚ) : List ℚ → ℕ
  | [] => bi
  | x :: xs => if bv < x then argmaxAux (i + 1) i x xs else argmaxAux (i + 1) bi bv xs

/-- `_, preds = torch.max(outputs, 1)` (line 242): the predicted class of one
sample is the index of the first maximal score. -/
def argmaxIdx : List ℚ → ℕ
  | [] => 0
  | x :: xs => argmaxAux 1 0 x xs

/-- `torch.sum(preds == labels.data)` (line 252): how many positions have
equal prediction and label. -/
def countCorrect (preds labels : List ℕ) : ℕ :=
  ((preds.zip labels).filter fun pl => pl.1 = pl.2).length

/-- `outputs = model(inputs)` (line 241): per-sample score vectors. -/
def batchOutputs {P ι S : Type} (cfg : Config P ι S) (p : P) (m : Bool) (b : Batch ι) :
    List (List ℚ) :=
  b.inputs.map (cfg.forward p m)

/-- `_, preds = torch.max(outputs, 1)` (line 242). -/
def batchPreds {P ι S : Type} (cfg : Config P ι S) (p : P) (m : Bool) (b : Batch ι) :
    List ℕ :=
  (batchOutputs cfg p m b).map argmaxIdx

/-- `loss = criterion(outputs, labels)` (line 243), as the scalar
`loss.item()`. -/
def batchLoss {P ι S : Type} (cfg : Config P ι S) (p : P) (m : Bool) (b : Batch ι) : ℚ :=
  cfg.criterion (batchOutputs cfg p m b) b.labels

/-- The number of correct predictions contributed by one batch
(line 252). -/
def batchCorrect {P ι S : Type} (cfg : Config P ι S) (p : P) (m : Bool) (b : Batch ι) : ℕ :=
  countCorrect (batchPreds cfg p m b) b.labels

/-- The parameters after one batch: `loss.backward(); optimizer.step()` runs
only in the training phase (lines 246-248), otherwise the parameters are
untouched. -/
def stepParams {P ι S : Type} (cfg : Config P ι S) (ph : Phase) (sched : S) (p : P)
    (b : Batch ι) : P :=
  if ph = Phase.train then cfg.optStep sched p b else p

/-- One iteration of the batch loop (lines 230-252): compute outputs,
predictions and loss with the current parameters, update the parameters only
in the training phase, and accumulate `running_loss += loss.item() *
inputs.size(0)` and `running_corrects += torch.sum(preds == labels)`. -/
def runBatch {P ι S : Type} (cfg : Config P ι S) (ph : Phase) (sched : S)
    (acc : BatchAcc P) (b : Batch ι) : BatchAcc P :=
  { params := stepParams cfg ph sched acc.params b,
    running_loss := acc.running_loss + batchLoss cfg acc.params (Phase.isTrain ph) b * (b.size : ℚ),
    running_corrects := acc.running_corrects + batchCorrect cfg acc.params (Phase.isTrain ph) b }

/-- The whole batch loop of one phase, starting from the model's current
parameters with both accumulators at zero (lines 226-252). -/
def phaseFold {P ι S : Type} (cfg : Config P ι S) (ph : Phase) (st : LoopState P S) :
    BatchAcc P :=
  (cfg.data ph).foldl (runBatch cfg ph st.sched) ⟨st.model.params, 0, 0⟩

/-- `epoch_loss = running_loss / dataset_sizes[phase]` (line 256). -/
def phaseLoss {P ι S : Type} (cfg : Config P ι S) (ph : Phase) (st : LoopState P S) : ℚ :=
  (phaseFold cfg ph st).running_loss / (cfg.datasetSize ph : ℚ)

/-- `epoch_acc = running_corrects.double() / dataset_sizes[phase]`
(line 257). -/
def phaseAcc {P ι S : Type} (cfg : Config P ι S) (ph : Phase) (st : LoopState P S) : ℚ :=
  ((phaseFold cfg ph st).running_corrects : ℚ) / (cfg.datasetSize ph : ℚ)

/-- The loop state after one phase (lines 220-264): the model's mode is set
by the phase, the parameters are those left by the batch loop, the scheduler
advances only after the training phase (lines 253-254), and
`best_acc` / `best_model_wts` are updated exactly when
`phase == 'val' and epoch_acc > best_acc` (lines 262-264), the snapshot
being a deep copy of the current parameters. -/
def phaseStep {P ι S : Type} (cfg : Config P ι S) (ph : Phase) (st : LoopState P S) :
    LoopState P S :=
  { model := { params := (phaseFold cfg ph st).params, training := Phase.isTrain ph },
    sched := if ph = Phase.train then cfg.schedStep st.sched else st.sched,
    best_acc :=
      if ph = Phase.val ∧ st.best_acc < phaseAcc cfg ph st then phaseAcc cfg ph st
      else st.best_acc,
    best_model_wts :=
      if ph = Phase.val ∧ st.best_acc < phaseAcc cfg ph st then (phaseFold cfg ph st).params
      else st.best_model_wts }

/-- The events one phase emits, in program order: the mode switch, one
`batchDone` per batch, the scheduler step (training phase only, after the
batch loop), the metric computation, and the snapshot update when it
fires. -/
def phaseTrace {P ι S : Type} (cfg : Config P ι S) (ph : Phase) (st : LoopState P S) :
    List Event :=
  Event.setMode (Phase.isTrain ph) ::
    ((cfg.data ph).map fun _ => Event.batchDone ph) ++
      (if ph = Phase.train then [Event.schedStep] else []) ++
        Event.metrics ph (phaseLoss cfg ph st) (phaseAcc cfg ph st) ::
          (if ph = Phase.val ∧ st.best_acc < phaseAcc cfg ph st then [Event.snapshot] else [])

/-- One epoch: the training phase followed by the validation phase
(line 220). -/
def epochStep {P ι S : Type} (cfg : Config P ι S) (st : LoopState P S) : LoopState P S :=
  phaseStep cfg Phase.val (phaseStep cfg Phase.train st)

/-- The events one epoch emits. -/
def epochTrace {P ι S : Type} (cfg : Config P ι S) (st : LoopState P S) : List Event :=
  phaseTrace cfg Phase.train st ++ phaseTrace cfg Phase.val (phaseStep cfg Phase.train st)

/-- The loop state after `k` epochs (`for epoch in range(num_epochs)`,
line 215). -/
def epochIter {P ι S : Type} (cfg : Config P ι S) (st : LoopState P S) : ℕ → LoopState P S
  | 0 => st
  | k + 1 => epochStep cfg (epochIter cfg st k)

/-- The events the first `k` epochs emit, in order. -/
def runTrace {P ι S : Type} (cfg : Config P ι S) (st : LoopState P S) : ℕ → List Event
  | 0 => []
  | k + 1 => runTrace cfg st k ++ epochTrace cfg (epochIter cfg st k)

/-- Lines 212-213: `best_model_wts = copy.deepcopy(model.state_dict())`,
`best_acc = 0.0`. -/
def initState {P S : Type} (model : ModelState P) (sched : S) : LoopState P S :=
  { model := model, sched := sched, best_acc := 0, best_model_wts := model.params }

/-- `train_model` (lines 208-274): initialise the tracking state, run
`num_epochs` epochs, then `model.load_state_dict(best_model_wts)` — which
replaces the parameters with the best snapshot and leaves the mode flag
alone — and return the model.  Also returns the emitted event trace. -/
def train_model {P ι S : Type} (cfg : Config P ι S) (model : ModelState P) (sched : S)
    (num_epochs : ℕ) : ModelState P × List Event :=
  let stF := epochIter cfg (initState model sched) num_epochs
  ({ params := stF.best_model_wts, training := stF.model.training },
    runTrace cfg (initState model sched) num_epochs)

/-- The loop state of a run of `train_model` after `k` complete epochs. -/
def stateAfterEpochs {P ι S : Type} (cfg : Config P ι S) (model : ModelState P) (sched : S)
    (k : ℕ) : LoopState P S :=
  epochIter cfg (initState model sched) k

/-- The validation accuracy `epoch_acc` recorded in epoch `e` of a run of
`train_model`: computed in the validation phase, after epoch `e`'s training
phase. -/
def valAccAt {P ι S : Type} (cfg : Config P ι S) (model : ModelState P) (sched : S)
    (e : ℕ) : ℚ :=
  phaseAcc cfg Phase.val (phaseStep cfg Phase.train (stateAfterEpochs cfg model sched e))

/-- The parameter snapshot `copy.deepcopy(model.state_dict())` that line 264
takes in epoch `e`: the validation phase does not change the parameters, so
it is the parameter state at the end of epoch `e`. -/
def snapshotAt {P ι S : Type} (cfg : Config P ι S) (model : ModelState P) (sched : S)
    (e : ℕ) : P :=
  (stateAfterEpochs cfg model sched (e + 1)).model.params

/-- The maximum of the accuracies `A 0, …, A (k-1)` together with the
initial `best_acc = 0.0`: the highest validation accuracy recorded in the
first `k` epochs (or `0` when none exceeds it). -/
def maxValAcc (A : ℕ → ℚ) : ℕ → ℚ
  | 0 => 0
  | k + 1 => max (maxValAcc A k) (A k)

/-- The earliest epoch among `0, …, k-1` whose accuracy attains
`maxValAcc A k` (meaningful when that maximum is positive; the
characterisation is proved, not assumed). -/
def bestEpoch (A : ℕ → ℚ) : ℕ → ℕ
  | 0 => 0
  | k + 1 => if A k ≤ maxValAcc A k then bestEpoch A k else k

/-- The phase the loop executes `i`-th over the whole run: phases alternate
train, val, train, val, … -/
def phaseOf (i : ℕ) : Phase :=
  if i % 2 = 0 then Phase.train else Phase.val

/-- The loop state of a run of `train_model` after `i` complete phases
(two phases per epoch). -/
def stateAfterPhases {P ι S : Type} (cfg : Config P ι S) (model : ModelState P) (sched : S) :
    ℕ → LoopState P S
  | 0 => initState model sched
  | i + 1 => phaseStep cfg (phaseOf i) (stateAfterPhases cfg model sched i)

/-- Recognise a scheduler-step event. -/
def Event.isSchedStep : Event → Bool
  | Event.schedStep => true
  | _ => false

/-- Number of `scheduler.step()` calls recorded in a trace. -/
def countSched (tr : List Event) : ℕ :=
  tr.countP Event.isSchedStep

/-- The sequence of mode switches recorded in a trace. -/
def setModes (tr : List Event) : List Bool :=
  tr.filterMap fun e =>
    match e with
    | Event.setMode b => some b
    | _ => none

/-- The last mode switch recorded in a trace, if any. -/
def lastSetMode (tr : List Event) : Option Bool :=
  (setModes tr).getLast?

/-- Errors relevant to the empty-partition question: Python's
`ZeroDivisionError`, and the configuration error the spec says an
implementer should raise instead (the script raises it nowhere). -/
inductive PyError
  | zeroDivisionError
  | configError
deriving DecidableEq, Repr

/-- Python division of a float by an integer count: raises
`ZeroDivisionError` when the divisor is zero, otherwise exact division. -/
def pydiv (x : ℚ) (n : ℕ) : Except PyError ℚ :=
  if n = 0 then Except.error PyError.zeroDivisionError else Except.ok (x / n)

/-- One phase with Python's division semantics made explicit: the batch loop
runs unguarded, then line 256 divides `running_loss` by the partition size
and line 257 divides the correct count by it.  No size check precedes
either division; on success the state is exactly `phaseStep`'s. -/
def runPhaseExc {P ι S : Type} (cfg : Config P ι S) (ph : Phase) (st : LoopState P S) :
    Except PyError (LoopState P S) :=
  match pydiv (phaseFold cfg ph st).running_loss (cfg.datasetSize ph) with
  | Except.error e => Except.error e
  | Except.ok _ =>
    match pydiv ((phaseFold cfg ph st).running_corrects : ℚ) (cfg.datasetSize ph) with
    | Except.error e => Except.error e
    | Except.ok _ => Except.ok (phaseStep cfg ph st)

/-- The per-batch observations of one phase, in order: for each batch, the
scalar loss the criterion returns for it (computed with the parameters
current at that batch), the batch size, and the number of correct
predictions. -/
def batchStatsAux {P ι S : Type} (cfg : Config P ι S) (ph : Phase) (sched : S) :
    P → List (Batch ι) → List (ℚ × ℕ × ℕ)
  | _, [] => []
  | p, b :: bs =>
    (batchLoss cfg p (Phase.isTrain ph) b, b.size, batchCorrect cfg p (Phase.isTrain ph) b)
      :: batchStatsAux cfg ph sched (stepParams cfg ph sched p b) bs

/-- The per-batch observations of one phase of the loop. -/
def batchStats {P ι S : Type} (cfg : Config P ι S) (ph : Phase) (st : LoopState P S) :
    List (ℚ × ℕ × ℕ) :=
  batchStatsAux cfg ph st.sched st.model.params (cfg.data ph)

/-- The inner loop of `visualize_model` (lines 295-304) over the predictions
of one batch: count each rendered image, and when the count reaches
`num_images` stop early (third component `true`).  Returns the new count,
the predictions rendered from this batch, and the early-return flag. -/
def vizSamples (num_images so_far : ℕ) : List ℕ → ℕ × List ℕ × Bool
  | [] => (so_far, [], false)
  | p :: ps =>
    if so_far + 1 = num_images then (so_far + 1, [p], true)
    else
      let r := vizSamples num_images (so_far + 1) ps
      (r.1, p :: r.2.1, r.2.2)

/-- The outer loop of `visualize_model` (lines 288-304) over the validation
batches: compute each batch's predictions with the model in evaluation mode
and render them, stopping as soon as the inner loop returned early. -/
def vizBatches {P ι S : Type} (cfg : Config P ι S) (p : P) (num_images : ℕ) :
    ℕ → List (Batch ι) → ℕ × List ℕ × Bool
  | so_far, [] => (so_far, [], false)
  | so_far, b :: bs =>
    let r := vizSamples num_images so_far (batchPreds cfg p false b)
    if r.2.2 then r
    else
      let r2 := vizBatches cfg p num_images r.1 bs
      (r2.1, r.2.1 ++ r2.2.1, r2.2.2)

/-- `visualize_model` (lines 281-305): remember `was_training`, switch the
model to evaluation mode, iterate the validation partition rendering up to
`num_images` predictions, and on both exits — the early `return` at
line 304 and the fall-through at line 305 — call
`model.train(mode=was_training)`.  Returns the final model state, the
rendered predictions, and whether the early-return path was taken. -/
def visualize_model {P ι S : Type} (cfg : Config P ι S) (model : ModelState P)
    (num_images : ℕ) : ModelState P × List ℕ × Bool :=
  let was_training := model.training
  let m1 : ModelState P := { params := model.params, training := false }
  let r := vizBatches cfg m1.params num_images 0 (cfg.data Phase.val)
  if r.2.2 then ({ params := m1.params, training := was_training }, r.2.1, true)
  else ({ params := m1.params, training := was_training }, r.2.1, false)

/-
  Concrete instantiations of the collaborators, used to evaluate the loop on
  explicit inputs.  Parameters, inputs and scheduler states are all `ℕ`.
-/

/-- A single batch holding one sample (input `0`) labelled with class `0`. -/
def batch1 : Batch ℕ := { inputs := [0], labels := [0] }

/-- A configuration whose model always predicts class `1` while every label
is `0` (so every epoch's validation accuracy is `0`), whose optimizer step
increments the parameter by one, with one single-sample batch per
partition. -/
def cfgZ : Config ℕ ℕ ℕ :=
  { forward := fun _ _ _ => [0, 1],
    criterion := fun _ _ => 1,
    optStep := fun _ p _ => p + 1,
    schedStep := fun s => s + 1,
    data := fun _ => [batch1] }

/-- A configuration whose model always predicts class `0` with every label
`0` (so every epoch's validation accuracy is `1`), whose optimizer step
increments the parameter by one. -/
def cfgG : Config ℕ ℕ ℕ :=
  { forward := fun _ _ _ => [1, 0],
    criterion := fun _ _ => 1,
    optStep := fun _ p _ => p + 1,
    schedStep := fun s => s + 1,
    data := fun _ => [batch1] }

/-- A configuration whose criterion returns the negative batch loss `-1`. -/
def cfgNeg : Config ℕ ℕ ℕ :=
  { forward := fun _ _ _ => [1, 0],
    criterion := fun _ _ => -1,
    optStep := fun _ p _ => p,
    schedStep := fun s => s,
    data := fun _ => [batch1] }

/-- The end-to-end scenario of the spec: each partition holds 4 labelled
samples in batches of 2, the model always predicts class `0`, and the
criterion returns the fixed per-sample loss `1.0` for every batch. -/
def cfg4 : Config ℕ ℕ ℕ :=
  { forward := fun _ _ _ => [1, 0],
    criterion := fun _ _ => 1,
    optStep := fun _ p _ => p,
    schedStep := fun s => s,
    data := fun _ => [{ inputs := [0, 1], labels := [0, 1] }, { inputs := [2, 3], labels := [0, 0] }] }

/-- A configuration whose partitions are empty. -/
def cfgE : Config ℕ ℕ ℕ :=
  { forward := fun _ _ _ => [1, 0],
    criterion := fun _ _ => 1,
    optStep := fun _ p _ => p + 1,
    schedStep := fun s => s + 1,
    data := fun _ => [] }

/-- An initial model in training mode with parameter `0`. -/
def mZ : ModelState ℕ := { params := 0, training := true }

/-
  Structural lemmas about one phase.
-/

/-- The validation-phase batch loop never touches the parameters: folding
`runBatch` for the `val` phase leaves the `params` component of the
accumulator unchanged. -/
lemma foldl_val_params {P ι S : Type} (cfg : Config P ι S) (sched : S) :
    ∀ (l : List (Batch ι)) (acc : BatchAcc P),
      (l.foldl (runBatch cfg Phase.val sched) acc).params = acc.params := by
  intro l
  induction l with
  | nil => intro acc; rfl
  | cons b bs ih =>
    intro acc
    rw [List.foldl_cons, ih]
    simp [runBatch, stepParams]

/-- After the whole validation batch loop the parameters are still the
model's. -/
lemma phaseFold_val_params {P ι S : Type} (cfg : Config P ι S) (st : LoopState P S) :
    (phaseFold cfg Phase.val st).params = st.model.params :=
  foldl_val_params cfg st.sched (cfg.data Phase.val) _

@[simp] lemma phaseStep_train_best_acc {P ι S : Type} (cfg : Config P ι S)
    (st : LoopState P S) : (phaseStep cfg Phase.train st).best_acc = st.best_acc := by
  simp [phaseStep]

@[simp] lemma phaseStep_train_wts {P ι S : Type} (cfg : Config P ι S)
    (st : LoopState P S) :
    (phaseStep cfg Phase.train st).best_model_wts = st.best_model_wts := by
  simp [phaseStep]

@[simp] lemma phaseStep_train_sched {P ι S : Type} (cfg : Config P ι S)
    (st : LoopState P S) : (phaseStep cfg Phase.train st).sched = cfg.schedStep st.sched := by
  simp [phaseStep]

@[simp] lemma phaseStep_train_training {P ι S : Type} (cfg : Config P ι S)
    (st : LoopState P S) : (phaseStep cfg Phase.train st).model.training = true := rfl

@[simp] lemma phaseStep_val_model_params {P ι S : Type} (cfg : Config P ι S)
    (st : LoopState P S) :
    (phaseStep cfg Phase.val st).model.params = st.model.params := by
  simp [phaseStep, phaseFold_val_params]

@[simp] lemma phaseStep_val_sched {P ι S : Type} (cfg : Config P ι S)
    (st : LoopState P S) : (phaseStep cfg Phase.val st).sched = st.sched := by
  simp [phaseStep]

@[simp] lemma phaseStep_val_training {P ι S : Type} (cfg : Config P ι S)
    (st : LoopState P S) : (phaseStep cfg Phase.val st).model.training = false := rfl

@[simp] lemma phaseStep_val_best_acc {P ι S : Type} (cfg : Config P ι S)
    (st : LoopState P S) :
    (phaseStep cfg Phase.val st).best_acc =
      if st.best_acc < phaseAcc cfg Phase.val st then phaseAcc cfg Phase.val st
      else st.best_acc := by
  simp [phaseStep]

@[simp] lemma phaseStep_val_wts {P ι S : Type} (cfg : Config P ι S)
    (st : LoopState P S) :
    (phaseStep cfg Phase.val st).best_model_wts =
      if st.best_acc < phaseAcc cfg Phase.val st then st.model.params
      else st.best_model_wts := by
  simp [phaseStep, phaseFold_val_params]

/-- `best_acc` never decreases across a single phase. -/
lemma best_acc_le_phaseStep {P ι S : Type} (cfg : Config P ι S) (ph : Phase)
    (st : LoopState P S) : st.best_acc ≤ (phaseStep cfg ph st).best_acc := by
  unfold phaseStep
  dsimp only
  split
  · next h => exact le_of_lt h.2
  · exact le_refl _

/-
  The running maximum and its earliest witness.
-/

lemma maxValAcc_nonneg (A : ℕ → ℚ) (k : ℕ) : 0 ≤ maxValAcc A k := by
  induction k with
  | zero => exact le_refl 0
  | succ k ih => exact le_trans ih (le_max_left _ _)

lemma le_maxValAcc (A : ℕ → ℚ) : ∀ {k e : ℕ}, e < k → A e ≤ maxValAcc A k := by
  intro k
  induction k with
  | zero => intro e h; exact absurd h (Nat.not_lt_zero e)
  | succ k ih =>
    intro e h
    rcases Nat.lt_succ_iff_lt_or_eq.mp h with h' | h'
    · exact le_trans (ih h') (le_max_left _ _)
    · subst h'; exact le_max_right _ _

lemma bestEpoch_le (A : ℕ → ℚ) : ∀ k : ℕ, bestEpoch A k ≤ k := by
  intro k
  induction k with
  | zero => exact le_refl 0
  | succ k ih =>
    unfold bestEpoch
    split
    · exact le_trans ih (Nat.le_succ k)
    · exact Nat.le_succ k

lemma bestEpoch_lt (A : ℕ → ℚ) {k : ℕ} (h : 0 < k) : bestEpoch A k < k := by
  obtain ⟨j, rfl⟩ : ∃ j, k = j + 1 := ⟨k - 1, by omega⟩
  unfold bestEpoch
  split
  · exact Nat.lt_succ_of_le (bestEpoch_le A j)
  · exact Nat.lt_succ_self j

/-- When the running maximum is positive, `bestEpoch` really is an epoch
attaining it, and every strictly earlier epoch has strictly smaller
accuracy (so it is the earliest epoch attaining the maximum). -/
lemma bestEpoch_spec (A : ℕ → ℚ) :
    ∀ {k : ℕ}, 0 < maxValAcc A k →
      A (bestEpoch A k) = maxValAcc A k ∧
        ∀ e < bestEpoch A k, A e < maxValAcc A k := by
  intro k
  induction k with
  | zero => intro h; exact absurd h (lt_irrefl 0)
  | succ k ih =>
    intro h
    have hmaxeq : maxValAcc A (k + 1) = max (maxValAcc A k) (A k) := rfl
    have hbeeq : bestEpoch A (k + 1) = if A k ≤ maxValAcc A k then bestEpoch A k else k := rfl
    by_cases hle : A k ≤ maxValAcc A k
    · have hmax : maxValAcc A (k + 1) = maxValAcc A k := by
        rw [hmaxeq]; exact max_eq_left hle
      have hbe : bestEpoch A (k + 1) = bestEpoch A k := by
        rw [hbeeq]; exact if_pos hle
      rw [hmax] at h ⊢
      rw [hbe]
      exact ih h
    · have hlt : maxValAcc A k < A k := lt_of_not_le hle
      have hmax : maxValAcc A (k + 1) = A k := by
        rw [hmaxeq]; exact max_eq_right (le_of_lt hlt)
      have hbe : bestEpoch A (k + 1) = k := by
        rw [hbeeq]; exact if_neg hle
      rw [hmax, hbe]
      exact ⟨rfl, fun e he => lt_of_le_of_lt (le_maxValAcc A he) hlt⟩

/-
  The main invariant of the run: after `k` epochs, `best_acc` is the running
  maximum of the recorded validation accuracies (with its initial value
  `0.0`), and `best_model_wts` is the snapshot from the earliest epoch
  attaining that maximum when it is positive, and still the initial
  parameters when it is zero.
-/

lemma run_invariant {P ι S : Type} (cfg : Config P ι S) (m : ModelState P) (s : S) :
    ∀ k : ℕ,
      (stateAfterEpochs cfg m s k).best_acc = maxValAcc (valAccAt cfg m s) k ∧
      (0 < maxValAcc (valAccAt cfg m s) k →
        (stateAfterEpochs cfg m s k).best_model_wts =
          snapshotAt cfg m s (bestEpoch (valAccAt cfg m s) k)) ∧
      (maxValAcc (valAccAt cfg m s) k = 0 →
        (stateAfterEpochs cfg m s k).best_model_wts = m.params) := by
  intro k
  induction k with
  | zero =>
    refine ⟨rfl, fun h => absurd h (lt_irrefl 0), fun _ => rfl⟩
  | succ k ih =>
    obtain ⟨ih1, ih2, ih3⟩ := ih
    have hstep : stateAfterEpochs cfg m s (k + 1) =
        phaseStep cfg Phase.val (phaseStep cfg Phase.train (stateAfterEpochs cfg m s k)) := rfl
    have hA : phaseAcc cfg Phase.val (phaseStep cfg Phase.train (stateAfterEpochs cfg m s k)) =
        valAccAt cfg m s k := rfl
    have hsnap : snapshotAt cfg m s k =
        (phaseStep cfg Phase.train (stateAfterEpochs cfg m s k)).model.params := by
      rw [snapshotAt, hstep, phaseStep_val_model_params]
    by_cases hc : maxValAcc (valAccAt cfg m s) k < valAccAt cfg m s k
    · have hc' : (phaseStep cfg Phase.train (stateAfterEpochs cfg m s k)).best_acc <
          phaseAcc cfg Phase.val (phaseStep cfg Phase.train (stateAfterEpochs cfg m s k)) := by
        rw [phaseStep_train_best_acc, ih1, hA]; exact hc
      have hmax : maxValAcc (valAccAt cfg m s) (k + 1) = valAccAt cfg m s k := by
        rw [show maxValAcc (valAccAt cfg m s) (k + 1) =
            max (maxValAcc (valAccAt cfg m s) k) (valAccAt cfg m s k) from rfl]
        exact max_eq_right (le_of_lt hc)
      have hbe : bestEpoch (valAccAt cfg m s) (k + 1) = k := by
        rw [show bestEpoch (valAccAt cfg m s) (k + 1) =
            (if valAccAt cfg m s k ≤ maxValAcc (valAccAt cfg m s) k
             then bestEpoch (valAccAt cfg m s) k else k) from rfl]
        exact if_neg (not_le_of_lt hc)
      refine ⟨?_, ?_, ?_⟩
      · rw [hstep, phaseStep_val_best_acc, if_pos hc', hA, hmax]
      · intro _
        rw [hstep, phaseStep_val_wts, if_pos hc', hbe, hsnap]
      · intro h0
        rw [hmax] at h0
        exact absurd h0 (ne_of_gt (lt_of_le_of_lt (maxValAcc_nonneg _ k) hc))
    · have hle : valAccAt cfg m s k ≤ maxValAcc (valAccAt cfg m s) k := not_lt.mp hc
      have hc' : ¬ (phaseStep cfg Phase.train (stateAfterEpochs cfg m s k)).best_acc <
          phaseAcc cfg Phase.val (phaseStep cfg Phase.train (stateAfterEpochs cfg m s k)) := by
        rw [phaseStep_train_best_acc, ih1, hA]; exact hc
      have hmax : maxValAcc (valAccAt cfg m s) (k + 1) = maxValAcc (valAccAt cfg m s) k := by
        rw [show maxValAcc (valAccAt cfg m s) (k + 1) =
            max (maxValAcc (valAccAt cfg m s) k) (valAccAt cfg m s k) from rfl]
        exact max_eq_left hle
      have hbe : bestEpoch (valAccAt cfg m s) (k + 1) = bestEpoch (valAccAt cfg m s) k := by
        rw [show bestEpoch (valAccAt cfg m s) (k + 1) =
            (if valAccAt cfg m s k ≤ maxValAcc (valAccAt cfg m s) k
             then bestEpoch (valAccAt cfg m s) k else k) from rfl]
        exact if_pos hle
      refine ⟨?_, ?_, ?_⟩
      · rw [hstep, phaseStep_val_best_acc, if_neg hc', phaseStep_train_best_acc, ih1, hmax]
      · intro h0
        rw [hstep, phaseStep_val_wts, if_neg hc', phaseStep_train_wts, hbe]
        exact ih2 (hmax ▸ h0)
      · intro h0
        rw [hstep, phaseStep_val_wts, if_neg hc', phaseStep_train_wts]
        exact ih3 (hmax ▸ h0)

/-
  Claim C1.
-/

/-- Claim C1 (amended): for every run of `train_model` with `num_epochs ≥ 1`
whose maximum recorded validation accuracy is strictly positive, the
parameters of the returned model equal the snapshot taken at the epoch with
the maximum recorded validation accuracy, and when several epochs tie for
the maximum the snapshot kept is the one from the earliest such epoch
(updates occur only on strict improvement).  The conjuncts characterise
`bestEpoch` as exactly that earliest maximising epoch.  (When the maximum is
`0`, no snapshot is ever taken and the initial parameters are returned
instead — see the counterexample and claim C8.) -/
theorem train_model_returns_earliest_best_snapshot {P ι S : Type} (cfg : Config P ι S)
    (m : ModelState P) (s : S) (n : ℕ) (h1 : 1 ≤ n)
    (h2 : 0 < maxValAcc (valAccAt cfg m s) n) :
    valAccAt cfg m s (bestEpoch (valAccAt cfg m s) n) = maxValAcc (valAccAt cfg m s) n ∧
    (∀ e < n, valAccAt cfg m s e ≤ valAccAt cfg m s (bestEpoch (valAccAt cfg m s) n)) ∧
    (∀ e < bestEpoch (valAccAt cfg m s) n,
      valAccAt cfg m s e < valAccAt cfg m s (bestEpoch (valAccAt cfg m s) n)) ∧
    bestEpoch (valAccAt cfg m s) n < n ∧
    (train_model cfg m s n).1.params = snapshotAt cfg m s (bestEpoch (valAccAt cfg m s) n) := by
  obtain ⟨hb1, hb2⟩ := bestEpoch_spec (valAccAt cfg m s) h2
  refine ⟨hb1, ?_, ?_, bestEpoch_lt _ h1, ?_⟩
  · intro e he
    rw [hb1]
    exact le_maxValAcc _ he
  · intro e he
    rw [hb1]
    exact hb2 e he
  · show (stateAfterEpochs cfg m s n).best_model_wts = _
    exact (run_invariant cfg m s n).2.1 h2

/-- Witness for C1 (amended): a concrete run of two epochs whose validation
accuracy is `1` in both epochs; the returned parameters are the snapshot of
epoch `0`, the earliest maximising epoch. -/
theorem train_model_returns_earliest_best_snapshot_witness :
    valAccAt cfgG mZ 0 (bestEpoch (valAccAt cfgG mZ 0) 2) = maxValAcc (valAccAt cfgG mZ 0) 2 ∧
    (∀ e < 2, valAccAt cfgG mZ 0 e ≤ valAccAt cfgG mZ 0 (bestEpoch (valAccAt cfgG mZ 0) 2)) ∧
    (∀ e < bestEpoch (valAccAt cfgG mZ 0) 2,
      valAccAt cfgG mZ 0 e < valAccAt cfgG mZ 0 (bestEpoch (valAccAt cfgG mZ 0) 2)) ∧
    bestEpoch (valAccAt cfgG mZ 0) 2 < 2 ∧
    (train_model cfgG mZ 0 2).1.params = snapshotAt cfgG mZ 0 (bestEpoch (valAccAt cfgG mZ 0) 2) :=
  train_model_returns_earliest_best_snapshot cfgG mZ 0 2 (by norm_num)
    (by norm_num [maxValAcc, valAccAt, stateAfterEpochs, epochIter, epochStep, phaseStep,
      phaseAcc, phaseFold, runBatch, batchLoss, batchCorrect, batchPreds, batchOutputs,
      argmaxIdx, argmaxAux, countCorrect, stepParams, Config.datasetSize, Batch.size,
      initState, Phase.isTrain, cfgG, mZ, batch1, List.foldl])

/-- Claim C1 as frozen is refuted by an all-zero-accuracy run: with `cfgZ`
every validation accuracy is `0`, so epoch `0` is the earliest epoch
attaining the maximum recorded validation accuracy, yet the returned
parameters are the initial ones (`0`), not the snapshot taken at epoch `0`
(`1`, since the optimizer stepped once during that epoch's train phase). -/
theorem returned_params_differ_from_max_epoch_snapshot :
    bestEpoch (valAccAt cfgZ mZ 0) 1 = 0 ∧
    valAccAt cfgZ mZ 0 0 = maxValAcc (valAccAt cfgZ mZ 0) 1 ∧
    (train_model cfgZ mZ 0 1).1.params = mZ.params ∧
    snapshotAt cfgZ mZ 0 0 ≠ mZ.params ∧
    (train_model cfgZ mZ 0 1).1.params ≠ snapshotAt cfgZ mZ 0 0 := by
  norm_num [maxValAcc, bestEpoch, valAccAt, snapshotAt, train_model, stateAfterEpochs,
    epochIter, epochStep, phaseStep, phaseAcc, phaseFold, runBatch, batchLoss, batchCorrect,
    batchPreds, batchOutputs, argmaxIdx, argmaxAux, countCorrect, stepParams,
    Config.datasetSize, Batch.size, initState, Phase.isTrain, cfgZ, mZ, batch1, List.foldl]
  decide

/-
  Claim C8.
-/

/-- Claim C8: `train_model` initialises `best_acc` to zero and the snapshot
to the initial parameters, and in any run where every recorded validation
accuracy is `0.0` no update fires (`0.0` does not strictly exceed `0.0`), so
the returned model carries the untrained initial parameters. -/
theorem all_zero_accuracies_return_initial_params {P ι S : Type} (cfg : Config P ι S)
    (m : ModelState P) (s : S) (n : ℕ)
    (h : ∀ e, e < n → valAccAt cfg m s e = 0) :
    (initState m s : LoopState P S).best_acc = 0 ∧
    (initState m s : LoopState P S).best_model_wts = m.params ∧
    (train_model cfg m s n).1.params = m.params := by
  have hmax : ∀ k : ℕ, (∀ e, e < k → valAccAt cfg m s e = 0) →
      maxValAcc (valAccAt cfg m s) k = 0 := by
    intro k
    induction k with
    | zero => intro _; rfl
    | succ k ih =>
      intro hk
      rw [show maxValAcc (valAccAt cfg m s) (k + 1) =
          max (maxValAcc (valAccAt cfg m s) k) (valAccAt cfg m s k) from rfl,
        hk k (Nat.lt_succ_self k), ih (fun e he => hk e (Nat.lt_succ_of_lt he))]
      exact max_self 0
  refine ⟨rfl, rfl, ?_⟩
  show (stateAfterEpochs cfg m s n).best_model_wts = m.params
  exact (run_invariant cfg m s n).2.2 (hmax n h)

/-- Witness for C8: the concrete always-wrong configuration `cfgZ` has
validation accuracy `0` in its only epoch, and the run returns the initial
parameter `0`. -/
theorem all_zero_accuracies_return_initial_params_witness :
    (initState mZ (0 : ℕ) : LoopState ℕ ℕ).best_acc = 0 ∧
    (initState mZ (0 : ℕ) : LoopState ℕ ℕ).best_model_wts = mZ.params ∧
    (train_model cfgZ mZ 0 1).1.params = mZ.params :=
  all_zero_accuracies_return_initial_params cfgZ mZ 0 1 (by
    intro e he
    have he0 : e = 0 := Nat.lt_one_iff.mp he
    subst he0
    norm_num [valAccAt, stateAfterEpochs, epochIter, phaseStep, phaseAcc, phaseFold,
      runBatch, batchLoss, batchCorrect, batchPreds, batchOutputs, argmaxIdx, argmaxAux,
      countCorrect, stepParams, Config.datasetSize, Batch.size, initState, Phase.isTrain,
      cfgZ, mZ, batch1, List.foldl])

/-
  Claim C2.
-/

/-- Two phases of the phase-granular view make one epoch. -/
lemma stateAfterPhases_two_mul {P ι S : Type} (cfg : Config P ι S) (m : ModelState P)
    (s : S) : ∀ k : ℕ, stateAfterPhases cfg m s (2 * k) = stateAfterEpochs cfg m s k := by
  intro k
  induction k with
  | zero => rfl
  | succ k ih =>
    have h2 : 2 * (k + 1) = (2 * k + 1) + 1 := by omega
    have hTrain : phaseOf (2 * k) = Phase.train := by
      unfold phaseOf
      rw [if_pos (Nat.mul_mod_right 2 k)]
    have hVal : phaseOf (2 * k + 1) = Phase.val := by
      unfold phaseOf
      rw [if_neg (by omega : ¬ (2 * k + 1) % 2 = 0)]
    rw [h2]
    show phaseStep cfg (phaseOf (2 * k + 1))
        (phaseStep cfg (phaseOf (2 * k)) (stateAfterPhases cfg m s (2 * k))) = _
    rw [hTrain, hVal, ih]
    rfl

/-- Claim C2: over any run of `train_model`, viewed phase by phase,
`best_acc` is monotonically non-decreasing — after any later phase its value
is at least its value after any earlier phase — and it changes (together
with the parameter snapshot) only when a validation-phase epoch accuracy
strictly exceeds it, in which case it becomes that accuracy and the snapshot
becomes the current parameters.  The last conjunct identifies the
phase-granular view with the run of `train_model` after whole epochs. -/
theorem best_acc_monotone {P ι S : Type} (cfg : Config P ι S) (m : ModelState P) (s : S)
    (i j : ℕ) (hij : i ≤ j) :
    (stateAfterPhases cfg m s i).best_acc ≤ (stateAfterPhases cfg m s j).best_acc ∧
    (((stateAfterPhases cfg m s (i + 1)).best_acc ≠ (stateAfterPhases cfg m s i).best_acc ∨
      (stateAfterPhases cfg m s (i + 1)).best_model_wts ≠
        (stateAfterPhases cfg m s i).best_model_wts) →
      phaseOf i = Phase.val ∧
      (stateAfterPhases cfg m s i).best_acc <
        phaseAcc cfg (phaseOf i) (stateAfterPhases cfg m s i) ∧
      (stateAfterPhases cfg m s (i + 1)).best_acc =
        phaseAcc cfg (phaseOf i) (stateAfterPhases cfg m s i) ∧
      (stateAfterPhases cfg m s (i + 1)).best_model_wts =
        (phaseFold cfg (phaseOf i) (stateAfterPhases cfg m s i)).params) ∧
    stateAfterPhases cfg m s (2 * j) = stateAfterEpochs cfg m s j := by
  refine ⟨?_, ?_, stateAfterPhases_two_mul cfg m s j⟩
  · induction j, hij using Nat.le_induction with
    | base => exact le_refl _
    | succ j hij ih =>
      exact le_trans ih (best_acc_le_phaseStep cfg (phaseOf j) (stateAfterPhases cfg m s j))
  · intro hch
    have hstep : stateAfterPhases cfg m s (i + 1) =
        phaseStep cfg (phaseOf i) (stateAfterPhases cfg m s i) := rfl
    by_cases hcond : phaseOf i = Phase.val ∧
        (stateAfterPhases cfg m s i).best_acc <
          phaseAcc cfg (phaseOf i) (stateAfterPhases cfg m s i)
    · refine ⟨hcond.1, hcond.2, ?_, ?_⟩
      · rw [hstep]
        unfold phaseStep
        dsimp only
        rw [if_pos hcond]
      · rw [hstep]
        unfold phaseStep
        dsimp only
        rw [if_pos hcond]
    · exfalso
      have h1 : (stateAfterPhases cfg m s (i + 1)).best_acc =
          (stateAfterPhases cfg m s i).best_acc := by
        rw [hstep]
        unfold phaseStep
        dsimp only
        rw [if_neg hcond]
      have h2 : (stateAfterPhases cfg m s (i + 1)).best_model_wts =
          (stateAfterPhases cfg m s i).best_model_wts := by
        rw [hstep]
        unfold phaseStep
        dsimp only
        rw [if_neg hcond]
      rcases hch with hch | hch
      · exact hch h1
      · exact hch h2

/-- Witness for C2 at a concrete run: monotonicity from phase 0 to phase 2
of `cfgG`'s run, the change condition at phase 0, and the phase/epoch
correspondence at one epoch. -/
theorem best_acc_monotone_witness :
    (stateAfterPhases cfgG mZ 0 0).best_acc ≤ (stateAfterPhases cfgG mZ 0 2).best_acc ∧
    (((stateAfterPhases cfgG mZ 0 1).best_acc ≠ (stateAfterPhases cfgG mZ 0 0).best_acc ∨
      (stateAfterPhases cfgG mZ 0 1).best_model_wts ≠
        (stateAfterPhases cfgG mZ 0 0).best_model_wts) →
      phaseOf 0 = Phase.val ∧
      (stateAfterPhases cfgG mZ 0 0).best_acc <
        phaseAcc cfgG (phaseOf 0) (stateAfterPhases cfgG mZ 0 0) ∧
      (stateAfterPhases cfgG mZ 0 1).best_acc =
        phaseAcc cfgG (phaseOf 0) (stateAfterPhases cfgG mZ 0 0) ∧
      (stateAfterPhases cfgG mZ 0 1).best_model_wts =
        (phaseFold cfgG (phaseOf 0) (stateAfterPhases cfgG mZ 0 0)).params) ∧
    stateAfterPhases cfgG mZ 0 (2 * 2) = stateAfterEpochs cfgG mZ 0 2 :=
  best_acc_monotone cfgG mZ 0 0 2 (by norm_num)

/-
  Claim C3.
-/

/-- The trace of a run is the concatenation, epoch by epoch, of the epoch
traces. -/
lemma runTrace_eq_flatMap {P ι S : Type} (cfg : Config P ι S) (st : LoopState P S) :
    ∀ n : ℕ, runTrace cfg st n =
      (List.range n).flatMap (fun e => epochTrace cfg (epochIter cfg st e)) := by
  intro n
  induction n with
  | zero => rfl
  | succ n ih =>
    rw [show runTrace cfg st (n + 1) =
        runTrace cfg st n ++ epochTrace cfg (epochIter cfg st n) from rfl,
      ih, List.range_succ, List.flatMap_append]
    simp

/-- The shape of one epoch's trace: mode switch to training, the train-phase
batch events, the scheduler step immediately after them, then the train
metrics, then the whole validation phase. -/
lemma epochTrace_shape {P ι S : Type} (cfg : Config P ι S) (st : LoopState P S) :
    epochTrace cfg st =
      Event.setMode true :: ((cfg.data Phase.train).map fun _ => Event.batchDone Phase.train) ++
        Event.schedStep ::
          Event.metrics Phase.train (phaseLoss cfg Phase.train st)
            (phaseAcc cfg Phase.train st) ::
            phaseTrace cfg Phase.val (phaseStep cfg Phase.train st) := by
  simp [epochTrace, phaseTrace, Phase.isTrain]

/-- The shape of a validation phase's trace: mode switch to evaluation, the
batch events, the metric computation, and possibly a snapshot update — no
scheduler step anywhere. -/
lemma valTrace_shape {P ι S : Type} (cfg : Config P ι S) (st : LoopState P S) :
    phaseTrace cfg Phase.val st =
      Event.setMode false :: ((cfg.data Phase.val).map fun _ => Event.batchDone Phase.val) ++
        Event.metrics Phase.val (phaseLoss cfg Phase.val st) (phaseAcc cfg Phase.val st) ::
          (if st.best_acc < phaseAcc cfg Phase.val st then [Event.snapshot] else []) := by
  simp [phaseTrace, Phase.isTrain]

/-- The validation phase emits no scheduler-step event. -/
lemma countSched_val {P ι S : Type} (cfg : Config P ι S) (st : LoopState P S) :
    countSched (phaseTrace cfg Phase.val st) = 0 := by
  rw [valTrace_shape]
  simp [countSched, Event.isSchedStep, apply_ite (List.countP Event.isSchedStep)]

/-- Batch events contribute no scheduler step. -/
lemma countSched_batchDones {ι : Type} (l : List (Batch ι)) (ph : Phase) :
    List.countP Event.isSchedStep (l.map fun _ => Event.batchDone ph) = 0 := by
  rw [List.countP_eq_zero]
  intro a ha
  obtain ⟨x, _, rfl⟩ := List.mem_map.mp ha
  simp [Event.isSchedStep]

/-- Each epoch emits exactly one scheduler-step event. -/
lemma countSched_epochTrace {P ι S : Type} (cfg : Config P ι S) (st : LoopState P S) :
    countSched (epochTrace cfg st) = 1 := by
  rw [epochTrace_shape]
  unfold countSched
  have h2 := countSched_val cfg (phaseStep cfg Phase.train st)
  unfold countSched at h2
  set M : List Event := (cfg.data Phase.train).map fun _ => Event.batchDone Phase.train with hM
  have hM0 : List.countP Event.isSchedStep M = 0 := countSched_batchDones _ _
  simp [List.countP_append, List.countP_cons, hM0, h2, Event.isSchedStep]

/-- A run of `n` epochs emits exactly `n` scheduler-step events. -/
lemma countSched_runTrace {P ι S : Type} (cfg : Config P ι S) (st : LoopState P S) :
    ∀ n : ℕ, countSched (runTrace cfg st n) = n := by
  intro n
  induction n with
  | zero => rfl
  | succ n ih =>
    rw [show runTrace cfg st (n + 1) =
        runTrace cfg st n ++ epochTrace cfg (epochIter cfg st n) from rfl]
    unfold countSched at ih ⊢
    rw [List.countP_append, ih]
    have := countSched_epochTrace cfg (epochIter cfg st n)
    unfold countSched at this
    rw [this]

/-- Claim C3: over a run of `num_epochs` epochs, `scheduler.step()` is
invoked exactly `num_epochs` times; the run's trace decomposes into the
epoch traces, each epoch's trace has the scheduler step immediately after
the train phase's batch loop completes and before the train metrics (hence
before the validation metrics), and the validation phase — whose trace
contains only the mode switch, batch events, metrics and possibly a
snapshot — never contains a scheduler step. -/
theorem scheduler_steps_once_per_epoch {P ι S : Type} (cfg : Config P ι S)
    (m : ModelState P) (s : S) (n : ℕ) :
    countSched (train_model cfg m s n).2 = n ∧
    (train_model cfg m s n).2 =
      (List.range n).flatMap (fun e => epochTrace cfg (stateAfterEpochs cfg m s e)) ∧
    (∀ st : LoopState P S, epochTrace cfg st =
      Event.setMode true :: ((cfg.data Phase.train).map fun _ => Event.batchDone Phase.train) ++
        Event.schedStep ::
          Event.metrics Phase.train (phaseLoss cfg Phase.train st)
            (phaseAcc cfg Phase.train st) ::
            phaseTrace cfg Phase.val (phaseStep cfg Phase.train st)) ∧
    (∀ st : LoopState P S, phaseTrace cfg Phase.val st =
      Event.setMode false :: ((cfg.data Phase.val).map fun _ => Event.batchDone Phase.val) ++
        Event.metrics Phase.val (phaseLoss cfg Phase.val st) (phaseAcc cfg Phase.val st) ::
          (if st.best_acc < phaseAcc cfg Phase.val st then [Event.snapshot] else [])) ∧
    (∀ st : LoopState P S, countSched (phaseTrace cfg Phase.val st) = 0) := by
  refine ⟨?_, ?_, epochTrace_shape cfg, valTrace_shape cfg, countSched_val cfg⟩
  · exact countSched_runTrace cfg (initState m s) n
  · exact runTrace_eq_flatMap cfg (initState m s) n

/-
  Claim C4.
-/

/-- Claim C4: the parameter update (the net effect of `loss.backward()` and
`optimizer.step()`) is applied to a batch exactly when the phase is `train`;
a validation batch leaves the parameters untouched and changes only the
accumulated loss and correct count; and the whole validation phase leaves
both the model's parameters and the scheduler state unchanged. -/
theorem backward_and_step_only_in_train {P ι S : Type} (cfg : Config P ι S) :
    (∀ (ph : Phase) (sched : S) (acc : BatchAcc P) (b : Batch ι),
      (runBatch cfg ph sched acc b).params =
        if ph = Phase.train then cfg.optStep sched acc.params b else acc.params) ∧
    (∀ (sched : S) (acc : BatchAcc P) (b : Batch ι),
      (runBatch cfg Phase.val sched acc b).params = acc.params ∧
      (runBatch cfg Phase.val sched acc b).running_loss =
        acc.running_loss + batchLoss cfg acc.params false b * (b.size : ℚ) ∧
      (runBatch cfg Phase.val sched acc b).running_corrects =
        acc.running_corrects + batchCorrect cfg acc.params false b) ∧
    (∀ st : LoopState P S,
      (phaseStep cfg Phase.val st).model.params = st.model.params ∧
      (phaseStep cfg Phase.val st).sched = st.sched) := by
  refine ⟨?_, ?_, ?_⟩
  · intro ph sched acc b
    rfl
  · intro sched acc b
    refine ⟨?_, rfl, rfl⟩
    simp [runBatch, stepParams]
  · intro st
    exact ⟨phaseStep_val_model_params cfg st, phaseStep_val_sched cfg st⟩

/-
  Claim C5.
-/

/-- The two running accumulators of a phase equal their initial values plus
the sums of the corresponding per-batch contributions. -/
lemma foldl_runBatch_stats {P ι S : Type} (cfg : Config P ι S) (ph : Phase) (sched : S) :
    ∀ (l : List (Batch ι)) (acc : BatchAcc P),
      (l.foldl (runBatch cfg ph sched) acc).running_loss =
        acc.running_loss +
          ((batchStatsAux cfg ph sched acc.params l).map fun t => t.1 * (t.2.1 : ℚ)).sum ∧
      (l.foldl (runBatch cfg ph sched) acc).running_corrects =
        acc.running_corrects +
          ((batchStatsAux cfg ph sched acc.params l).map fun t => t.2.2).sum := by
  intro l
  induction l with
  | nil => intro acc; simp [batchStatsAux]
  | cons b bs ih =>
    intro acc
    rw [List.foldl_cons]
    obtain ⟨ih1, ih2⟩ := ih (runBatch cfg ph sched acc b)
    constructor
    · rw [ih1]
      show acc.running_loss + batchLoss cfg acc.params (Phase.isTrain ph) b * (b.size : ℚ) +
          ((batchStatsAux cfg ph sched (stepParams cfg ph sched acc.params b) bs).map
            fun t => t.1 * (t.2.1 : ℚ)).sum = _
      rw [show batchStatsAux cfg ph sched acc.params (b :: bs) =
          (batchLoss cfg acc.params (Phase.isTrain ph) b, b.size,
            batchCorrect cfg acc.params (Phase.isTrain ph) b) ::
            batchStatsAux cfg ph sched (stepParams cfg ph sched acc.params b) bs from rfl]
      rw [List.map_cons, List.sum_cons]
      ring
    · rw [ih2]
      show acc.running_corrects + batchCorrect cfg acc.params (Phase.isTrain ph) b +
          ((batchStatsAux cfg ph sched (stepParams cfg ph sched acc.params b) bs).map
            fun t => t.2.2).sum = _
      rw [show batchStatsAux cfg ph sched acc.params (b :: bs) =
          (batchLoss cfg acc.params (Phase.isTrain ph) b, b.size,
            batchCorrect cfg acc.params (Phase.isTrain ph) b) ::
            batchStatsAux cfg ph sched (stepParams cfg ph sched acc.params b) bs from rfl]
      rw [List.map_cons, List.sum_cons]
      dsimp only
      omega

/-- Claim C5: for every phase of every epoch the epoch loss is the sum over
the phase's batches of (batch loss × batch size) divided by the partition
size, and the epoch accuracy is the total count of correct predictions
(argmax of the scores equals the label) divided by the partition size; and
in the concrete scenario of a partition of 4 samples in batches of 2 with
fixed per-sample loss `1.0`, the accumulated weighted loss is `4.0` and the
epoch loss is `1.0`. -/
theorem epoch_metrics_formula {P ι S : Type} (cfg : Config P ι S) :
    (∀ (ph : Phase) (st : LoopState P S),
      phaseLoss cfg ph st =
        ((batchStats cfg ph st).map fun t => t.1 * (t.2.1 : ℚ)).sum /
          (cfg.datasetSize ph : ℚ) ∧
      phaseAcc cfg ph st =
        ((((batchStats cfg ph st).map fun t => t.2.2).sum : ℕ) : ℚ) /
          (cfg.datasetSize ph : ℚ)) ∧
    (phaseFold cfg4 Phase.train (initState mZ 0)).running_loss = 4 ∧
    phaseLoss cfg4 Phase.train (initState mZ 0) = 1 := by
  refine ⟨?_, ?_, ?_⟩
  · intro ph st
    obtain ⟨h1, h2⟩ := foldl_runBatch_stats cfg ph st.sched (cfg.data ph)
      ⟨st.model.params, 0, 0⟩
    constructor
    · unfold phaseLoss phaseFold
      rw [h1]
      dsimp only
      rw [zero_add]
      rfl
    · unfold phaseAcc phaseFold
      rw [h2]
      dsimp only
      rw [zero_add]
      rfl
  · norm_num [phaseFold, runBatch, batchLoss, batchCorrect, batchPreds, batchOutputs,
      argmaxIdx, argmaxAux, countCorrect, stepParams, Batch.size, initState, Phase.isTrain,
      cfg4, mZ, List.foldl]
  · norm_num [phaseLoss, phaseFold, runBatch, batchLoss, batchCorrect, batchPreds,
      batchOutputs, argmaxIdx, argmaxAux, countCorrect, stepParams, Config.datasetSize,
      Batch.size, initState, Phase.isTrain, cfg4, mZ, List.foldl]

/-
  Claim C6.
-/

/-- If the criterion never returns a negative batch loss, the running loss
stays nonnegative through the batch loop. -/
lemma running_loss_nonneg {P ι S : Type} (cfg : Config P ι S) (ph : Phase) (sched : S)
    (hcrit : ∀ outs labs, 0 ≤ cfg.criterion outs labs) :
    ∀ (l : List (Batch ι)) (acc : BatchAcc P), 0 ≤ acc.running_loss →
      0 ≤ (l.foldl (runBatch cfg ph sched) acc).running_loss := by
  intro l
  induction l with
  | nil => intro acc h; exact h
  | cons b bs ih =>
    intro acc h
    rw [List.foldl_cons]
    apply ih
    show 0 ≤ acc.running_loss + batchLoss cfg acc.params (Phase.isTrain ph) b * (b.size : ℚ)
    exact add_nonneg h (mul_nonneg (hcrit _ _) (Nat.cast_nonneg _))

/-- A batch contributes at most its own size of correct predictions. -/
lemma batchCorrect_le {P ι S : Type} (cfg : Config P ι S) (p : P) (m : Bool) (b : Batch ι) :
    batchCorrect cfg p m b ≤ b.size := by
  unfold batchCorrect countCorrect
  calc ((batchPreds cfg p m b).zip b.labels |>.filter fun pl => pl.1 = pl.2).length
      ≤ ((batchPreds cfg p m b).zip b.labels).length := List.length_filter_le _ _
    _ ≤ (batchPreds cfg p m b).length := by rw [List.length_zip]; exact Nat.min_le_left _ _
    _ = b.size := by unfold batchPreds batchOutputs Batch.size; rw [List.length_map, List.length_map]

/-- The correct count after the batch loop is bounded by the initial count
plus the partition's total size. -/
lemma corrects_le_sizes {P ι S : Type} (cfg : Config P ι S) (ph : Phase) (sched : S) :
    ∀ (l : List (Batch ι)) (acc : BatchAcc P),
      (l.foldl (runBatch cfg ph sched) acc).running_corrects ≤
        acc.running_corrects + (l.map Batch.size).sum := by
  intro l
  induction l with
  | nil => intro acc; simp
  | cons b bs ih =>
    intro acc
    rw [List.foldl_cons]
    have h1 := ih (runBatch cfg ph sched acc b)
    have h2 : (runBatch cfg ph sched acc b).running_corrects =
        acc.running_corrects + batchCorrect cfg acc.params (Phase.isTrain ph) b := rfl
    have h3 := batchCorrect_le cfg acc.params (Phase.isTrain ph) b
    rw [List.map_cons, List.sum_cons]
    omega

/-- Claim C6 (amended): for every phase and epoch on a non-empty partition,
the epoch accuracy lies in `[0, 1]` — unconditionally, for any criterion —
and the epoch loss is nonnegative provided the loss function returns
nonnegative batch losses (as the script's cross-entropy criterion does). -/
theorem epoch_metrics_bounds {P ι S : Type} (cfg : Config P ι S) (ph : Phase)
    (st : LoopState P S) (hsz : 0 < cfg.datasetSize ph) :
    0 ≤ phaseAcc cfg ph st ∧ phaseAcc cfg ph st ≤ 1 ∧
    ((∀ outs labs, 0 ≤ cfg.criterion outs labs) → 0 ≤ phaseLoss cfg ph st) := by
  refine ⟨?_, ?_, ?_⟩
  · exact div_nonneg (Nat.cast_nonneg _) (Nat.cast_nonneg _)
  · have hc : (phaseFold cfg ph st).running_corrects ≤ cfg.datasetSize ph := by
      have hb := corrects_le_sizes cfg ph st.sched (cfg.data ph) ⟨st.model.params, 0, 0⟩
      dsimp only at hb
      unfold phaseFold
      unfold Config.datasetSize
      omega
    have hszq : (0 : ℚ) < (cfg.datasetSize ph : ℚ) := by exact_mod_cast hsz
    rw [phaseAcc, div_le_one hszq]
    exact_mod_cast hc
  · intro hcrit
    exact div_nonneg
      (running_loss_nonneg cfg ph st.sched hcrit (cfg.data ph) ⟨st.model.params, 0, 0⟩
        (le_refl 0)) (Nat.cast_nonneg _)

/-- Witness for C6 (amended) at the concrete configuration `cfgG`, whose
train partition has one sample (and whose criterion constantly returns `1`,
so the loss implication's hypothesis is also satisfiable there). -/
theorem epoch_metrics_bounds_witness :
    0 ≤ phaseAcc cfgG Phase.train (initState mZ 0) ∧
    phaseAcc cfgG Phase.train (initState mZ 0) ≤ 1 ∧
    ((∀ outs labs, 0 ≤ cfgG.criterion outs labs) →
      0 ≤ phaseLoss cfgG Phase.train (initState mZ 0)) :=
  epoch_metrics_bounds cfgG Phase.train (initState mZ 0)
    (by norm_num [Config.datasetSize, cfgG, batch1, Batch.size])

/-- Claim C6 as frozen is refuted by a run whose criterion returns the
negative batch loss `-1`: the partition is non-empty, yet the computed epoch
loss is `-1 < 0`.  The loss function is a parameter of `train_model`; the
unconditional claim holds only for nonnegative criteria. -/
theorem epoch_loss_negative_example :
    0 < Config.datasetSize cfgNeg Phase.train ∧
    phaseLoss cfgNeg Phase.train (initState mZ 0) < 0 := by
  norm_num [phaseLoss, phaseFold, runBatch, batchLoss, batchCorrect, batchPreds,
    batchOutputs, argmaxIdx, argmaxAux, countCorrect, stepParams, Config.datasetSize,
    Batch.size, initState, Phase.isTrain, cfgNeg, mZ, batch1, List.foldl]

/-
  Claim C7.
-/

/-- Claim C7: when a phase's partition has size `0`, the epoch-loss
computation of `train_model` performs an unguarded division by zero — in
Python a `ZeroDivisionError`, reached after the (vacuous) batch loop — and
not a checked configuration error, which the loop never raises; on any
partition of nonzero size the same computation succeeds and produces
exactly the state `phaseStep` describes. -/
theorem empty_partition_divides_by_zero {P ι S : Type} (cfg : Config P ι S) (ph : Phase)
    (st : LoopState P S) (h : cfg.datasetSize ph = 0) :
    runPhaseExc cfg ph st = Except.error PyError.zeroDivisionError ∧
    runPhaseExc cfg ph st ≠ Except.error PyError.configError ∧
    (∀ (ph' : Phase) (st' : LoopState P S), cfg.datasetSize ph' ≠ 0 →
      runPhaseExc cfg ph' st' = Except.ok (phaseStep cfg ph' st')) := by
  have h1 : runPhaseExc cfg ph st = Except.error PyError.zeroDivisionError := by
    unfold runPhaseExc pydiv
    rw [if_pos h]
  refine ⟨h1, ?_, ?_⟩
  · rw [h1]
    simp
  · intro ph' st' hne
    unfold runPhaseExc pydiv
    simp only [if_neg hne]

/-- Witness for C7: the configuration `cfgE` with empty partitions hits the
zero division, while `cfgZ`'s one-sample partitions succeed. -/
theorem empty_partition_divides_by_zero_witness :
    runPhaseExc cfgE Phase.train (initState mZ 0) = Except.error PyError.zeroDivisionError ∧
    runPhaseExc cfgE Phase.train (initState mZ 0) ≠ Except.error PyError.configError ∧
    (∀ (ph' : Phase) (st' : LoopState ℕ ℕ), Config.datasetSize cfgE ph' ≠ 0 →
      runPhaseExc cfgE ph' st' = Except.ok (phaseStep cfgE ph' st')) :=
  empty_partition_divides_by_zero cfgE Phase.train (initState mZ 0) rfl

/-
  Claim C9.
-/

/-- Claim C9: for every invocation of `visualize_model` on a model that was
in training mode beforehand, the model's mode is training again after the
call returns — on both the early-return path (third component `true`) and
the fall-through path — even though evaluation mode was used internally. -/
theorem visualize_restores_training_mode {P ι S : Type} (cfg : Config P ι S)
    (m : ModelState P) (k : ℕ) (h : m.training = true) :
    (visualize_model cfg m k).1.training = true ∧
    (visualize_model cfg m k).1.training = m.training := by
  unfold visualize_model
  dsimp only
  split
  · exact ⟨h, rfl⟩
  · exact ⟨h, rfl⟩

/-- Witness for C9: the model `mZ` is in training mode; after visualising
one image with `cfgG` (the early-return path fires after the first sample)
the mode is training again. -/
theorem visualize_restores_training_mode_witness :
    (visualize_model cfgG mZ 1).1.training = true ∧
    (visualize_model cfgG mZ 1).1.training = mZ.training :=
  visualize_restores_training_mode cfgG mZ 1 rfl

/-
  Claim C10.
-/

/-- Pairs at the end of a list determine its last element. -/
lemma getLast?_append_pair {α : Type} (l : List α) (a b : α) :
    (l ++ [a, b]).getLast? = some b := by
  rw [show l ++ [a, b] = (l ++ [a]) ++ [b] by simp, List.getLast?_concat]

/-- The mode switches of one phase's trace: exactly the one switch to the
phase's mode. -/
lemma setModes_phaseTrace {P ι S : Type} (cfg : Config P ι S) (ph : Phase)
    (st : LoopState P S) :
    setModes (phaseTrace cfg ph st) = [Phase.isTrain ph] := by
  unfold setModes phaseTrace
  rw [List.filterMap_append, List.filterMap_append, List.filterMap_cons]
  have h1 : ∀ l : List (Batch ι),
      (l.map fun _ => Event.batchDone ph).filterMap
        (fun e => match e with | Event.setMode b => some b | _ => none) = [] := by
    intro l
    rw [List.filterMap_eq_nil_iff]
    intro a ha
    obtain ⟨x, _, rfl⟩ := List.mem_map.mp ha
    rfl
  have h2 : (if ph = Phase.train then [Event.schedStep] else []).filterMap
      (fun e => match e with | Event.setMode b => some b | _ => none) = [] := by
    split <;> rfl
  have hsnap : (if ph = Phase.val ∧ st.best_acc < phaseAcc cfg ph st then [Event.snapshot]
      else []).filterMap
      (fun e => match e with | Event.setMode b => some b | _ => none) = [] := by
    split <;> rfl
  have h3 : ((Event.metrics ph (phaseLoss cfg ph st) (phaseAcc cfg ph st) ::
      (if ph = Phase.val ∧ st.best_acc < phaseAcc cfg ph st then [Event.snapshot]
       else []))).filterMap
      (fun e => match e with | Event.setMode b => some b | _ => none) = [] := by
    rw [List.filterMap_cons]
    dsimp only
    exact hsnap
  rw [h1, h2, h3]
  rfl

/-- The mode switches of one epoch's trace: training then evaluation. -/
lemma setModes_epochTrace {P ι S : Type} (cfg : Config P ι S) (st : LoopState P S) :
    setModes (epochTrace cfg st) = [true, false] := by
  unfold epochTrace
  show setModes (phaseTrace cfg Phase.train st ++
    phaseTrace cfg Phase.val (phaseStep cfg Phase.train st)) = _
  unfold setModes
  rw [List.filterMap_append]
  have h1 := setModes_phaseTrace cfg Phase.train st
  have h2 := setModes_phaseTrace cfg Phase.val (phaseStep cfg Phase.train st)
  unfold setModes at h1 h2
  rw [h1, h2]
  rfl

/-- Claim C10: for every run of `train_model` with `num_epochs ≥ 1`, the
returned model is in evaluation mode; its mode is exactly the loop state's
mode after the final epoch (restoring the best snapshot changes only the
parameters), and the last mode switch of the whole run's trace is the switch
to evaluation mode performed at the start of the final epoch's validation
phase. -/
theorem returned_model_in_eval_mode {P ι S : Type} (cfg : Config P ι S) (m : ModelState P)
    (s : S) (n : ℕ) (h : 1 ≤ n) :
    (train_model cfg m s n).1.training = false ∧
    (train_model cfg m s n).1.training = (stateAfterEpochs cfg m s n).model.training ∧
    lastSetMode (train_model cfg m s n).2 = some false := by
  obtain ⟨j, rfl⟩ : ∃ j, n = j + 1 := ⟨n - 1, by omega⟩
  refine ⟨rfl, rfl, ?_⟩
  show lastSetMode (runTrace cfg (initState m s) (j + 1)) = some false
  rw [show runTrace cfg (initState m s) (j + 1) =
      runTrace cfg (initState m s) j ++
        epochTrace cfg (epochIter cfg (initState m s) j) from rfl]
  unfold lastSetMode
  unfold setModes
  rw [List.filterMap_append]
  have h2 := setModes_epochTrace cfg (epochIter cfg (initState m s) j)
  unfold setModes at h2
  rw [h2]
  exact getLast?_append_pair _ true false

/-- Witness for C10: a two-epoch run of `cfgG` returns a model in
evaluation mode, and the trace's last mode switch is to evaluation. -/
theorem returned_model_in_eval_mode_witness :
    (train_model cfgG mZ 0 2).1.training = false ∧
    (train_model cfgG mZ 0 2).1.training = (stateAfterEpochs cfgG mZ 0 2).model.training ∧
    lastSetMode (train_model cfgG mZ 0 2).2 = some false :=
  returned_model_in_eval_mode cfgG mZ 0 2 (by norm_num)

end TL

